import Mathlib

/-!
Verification of the temporal graph-state engine of the RDF graph viewer
(`src/rdf-graph-viewer/src/main.js`), as a shallow embedding in Lean.

The embedding covers the URI shortener (`shortenURI`), the triple projector
(`triplesToGraph` with its two passes), the state-history store together with
the timeline controller (`addNewState`, `seekToTick`, `seekToTime`,
`goToLive`, `updateLiveStatus`, and the timeline-surface click handler).
DOM slider bookkeeping and the force-layout renderer are external; a render
request is modelled as the pair of arguments the code passes to `renderState`.
Machine floats (timestamps, `Math.abs`) are modelled on exact rationals, and
the `JSON.stringify`-based snapshot comparison as structural equality of the
node/link collections.
-/

namespace RDFGraphViewer

/-- Term kinds produced by the n3 parser; the projector only ever tests
`triple.object.termType === 'NamedNode'`, everything else is treated alike. -/
inductive TermType where
  | namedNode
  | literal
  | blankNode
deriving DecidableEq, Repr

/-- An RDF term: its kind and its `value` string. -/
structure Term where
  termType : TermType
  value : String
deriving DecidableEq, Repr

/-- One parsed statement (a `triple` in the source). -/
structure Triple where
  subject : Term
  predicate : Term
  object : Term
deriving DecidableEq, Repr

/-- The `typeDisplay` setting: `'on'` (tags), `'nodes'` (types as nodes), `'off'`. -/
inductive TypeDisplay where
  | on
  | nodes
  | off
deriving DecidableEq, Repr

/-- Membership in the character class of the shortening pattern (slash or hash). -/
def isSep (c : Char) : Bool := c = '/' || c = '#'

/-- Left-to-right scan of the uri characters for the shortening pattern: a match
starts at a separator that is followed by a nonempty, separator-free run reaching
the end of the string; the capture group is that run.  The first matching start
position wins, exactly as the regex engine behaves. -/
def scanMatch : List Char → Option (List Char)
  | [] => none
  | c :: cs =>
      if isSep c && !cs.isEmpty && cs.all (fun d => !isSep d) then some cs
      else scanMatch cs

/-- `shortenURI(uri)`: the capture of the pattern when it matches, else the
input unchanged. -/
def shortenURI (uri : String) : String :=
  match scanMatch uri.data with
  | some captured => String.mk captured
  | none => uri

/-- A node of the projected graph (`id`, `label`, `types`, the optional
`isType` flag defaulting to absent/false). -/
structure GraphNode where
  id : String
  label : String
  types : List String
  isType : Bool
deriving DecidableEq, Repr

/-- A directed, predicate-labelled link of the projected graph. -/
structure GraphLink where
  source : String
  target : String
  predicate : String
deriving DecidableEq, Repr

/-- `nodes.has(id)` on the insertion-ordered node map, modelled as a list. -/
def hasNode (ns : List GraphNode) (id : String) : Bool := ns.any (fun n => n.id = id)

/-- The guarded insertion `if (!nodes.has(n.id)) nodes.set(n.id, n)`: append at
the end iff the id is absent, preserving `Map` insertion order. -/
def ensureNode (ns : List GraphNode) (n : GraphNode) : List GraphNode :=
  if hasNode ns n.id then ns else ns ++ [n]

/-- One step of the first pass: create the `nodeTypes` entry on first sight and
push the shortened object onto it. -/
def addNodeType (m : List (String × List String)) (subj obj : String) :
    List (String × List String) :=
  match m with
  | [] => [(subj, [obj])]
  | (k, v) :: rest =>
      if k = subj then (k, v ++ [obj]) :: rest else (k, v) :: addNodeType rest subj obj

/-- `nodeTypes.get(k) || []`. -/
def getNodeTypes (m : List (String × List String)) (k : String) : List String :=
  match m.find? (fun e => e.1 = k) with
  | some e => e.2
  | none => []

/-- First pass of `triplesToGraph`: index the `rdf:type` relationships by
shortened subject. -/
def buildNodeTypes (triples : List Triple) : List (String × List String) :=
  triples.foldl
    (fun m triple =>
      if shortenURI triple.predicate.value = "type" then
        addNodeType m (shortenURI triple.subject.value) (shortenURI triple.object.value)
      else m)
    []

/-- The `types` field given to a freshly created node: the indexed types when
the display setting is `'on'`, otherwise empty. -/
def typesFor (td : TypeDisplay) (m : List (String × List String)) (k : String) :
    List String :=
  if td = TypeDisplay.on then getNodeTypes m k else []

/-- One iteration of the second (build) pass of `triplesToGraph` over a single
statement, updating the accumulated nodes and links. -/
def buildStep (td : TypeDisplay) (m : List (String × List String))
    (st : List GraphNode × List GraphLink) (triple : Triple) :
    List GraphNode × List GraphLink :=
  let subject := shortenURI triple.subject.value
  let predicate := shortenURI triple.predicate.value
  let object := shortenURI triple.object.value
  if predicate = "type" then
    let ns := ensureNode st.1 ⟨subject, subject, typesFor td m subject, false⟩
    if td = TypeDisplay.nodes then
      let ns2 := ensureNode ns ⟨object, object, [], true⟩
      (ns2, st.2 ++ [⟨subject, object, predicate⟩])
    else (ns, st.2)
  else
    let ns := ensureNode st.1 ⟨subject, subject, typesFor td m subject, false⟩
    if triple.object.termType = TermType.namedNode then
      let ns2 := ensureNode ns ⟨object, object, typesFor td m object, false⟩
      (ns2, st.2 ++ [⟨subject, object, predicate⟩])
    else (ns, st.2)

/-- The `(nodes, links)` pair returned by the projector. -/
structure GraphData where
  nodes : List GraphNode
  links : List GraphLink
deriving DecidableEq, Repr

/-- `triplesToGraph(triples)` under a given `typeDisplay` setting: the type-index
pass followed by the build pass. -/
def triplesToGraph (td : TypeDisplay) (triples : List Triple) : GraphData :=
  let nodeTypes := buildNodeTypes triples
  let st := triples.foldl (buildStep td nodeTypes) ([], [])
  ⟨st.1, st.2⟩

/-- A stored graph state: the projected nodes and links plus the capture
timestamp (seconds since engine start), modelled on exact rationals. -/
structure Snapshot where
  nodes : List GraphNode
  links : List GraphLink
  timestamp : ℚ
deriving DecidableEq, Repr

/-- The arguments of a `renderState` call: the index passed and the `animate`
flag (defaulting to false at call sites that omit it). -/
structure RenderReq where
  index : ℤ
  animate : Bool
deriving DecidableEq, Repr

/-- The engine state of the viewer: the snapshot history, the playhead index,
and the live/paused flags.  DOM handles, layout settings and the render cache
are external to the temporal engine and omitted. -/
structure Viewer where
  states : List Snapshot
  currentStateIndex : ℤ
  isLive : Bool
  isPaused : Bool
deriving DecidableEq, Repr

/-- The constructor's initial engine state: empty history, index 0, live. -/
def initialViewer : Viewer := ⟨[], 0, true, false⟩

/-- `updateLiveStatus()`: live iff the playhead sits on the last state and the
viewer is not paused; the paused flag is forced to the negation of live. -/
def updateLiveStatus (v : Viewer) : Viewer :=
  let isAtLatest : Bool := decide (v.currentStateIndex = (v.states.length : ℤ) - 1)
  let live := isAtLatest && !v.isPaused
  { v with isLive := live, isPaused := !live }

/-- `seekToTick(tickValue)`: set the playhead index to the tick unconditionally,
refresh the live status, and request a render of that index without animating.
The slider-value mirroring is DOM-only and omitted. -/
def seekToTick (v : Viewer) (tickValue : ℤ) : Viewer × Option RenderReq :=
  let v1 := updateLiveStatus { v with currentStateIndex := tickValue }
  (v1, some ⟨tickValue, false⟩)

/-- `Math.abs` on the exact-rational model of machine numbers. -/
def jsAbs (x : ℚ) : ℚ := if x < 0 then -x else x

/-- The scanning loop of `seekToTime` over the timestamps from index 1 upward,
carrying the running index, the best index seen and its distance; a strictly
smaller distance replaces the best. -/
def loopClosest (t : ℚ) : List ℚ → ℕ → ℕ → ℚ → ℕ
  | [], _, best, _ => best
  | x :: rest, i, best, bestDiff =>
      if jsAbs (x - t) < bestDiff then loopClosest t rest (i + 1) i (jsAbs (x - t))
      else loopClosest t rest (i + 1) best bestDiff

/-- `seekToTime(timeValue)`: no-op on an empty history; otherwise scan for the
state whose timestamp is closest to the time (first minimum wins), move the
playhead there, refresh the live status and request a non-animated render. -/
def seekToTime (v : Viewer) (timeValue : ℚ) : Viewer × Option RenderReq :=
  match v.states with
  | [] => (v, none)
  | s0 :: rest =>
      let closestIndex :=
        loopClosest timeValue (rest.map Snapshot.timestamp) 1 0 (jsAbs (s0.timestamp - timeValue))
      let v1 := updateLiveStatus { v with currentStateIndex := (closestIndex : ℤ) }
      (v1, some ⟨(closestIndex : ℤ), false⟩)

/-- `goToLive()`: on a non-empty history, set the flags live, move the playhead
to the last state, request a non-animated render and refresh the live status. -/
def goToLive (v : Viewer) : Viewer × Option RenderReq :=
  if v.states.length > 0 then
    let idx : ℤ := (v.states.length : ℤ) - 1
    let v1 : Viewer := { v with isLive := true, isPaused := false, currentStateIndex := idx }
    (updateLiveStatus v1, some ⟨idx, false⟩)
  else (v, none)

/-- The timeline-wrapper click handler: a click while live pauses the viewer. -/
def timelineClick (v : Viewer) : Viewer :=
  if v.isLive then updateLiveStatus { v with isLive := false, isPaused := true } else v

/-- The result of an append attempt: a new state added, or a duplicate skipped. -/
inductive AddResult where
  | added
  | deduped
deriving DecidableEq, Repr

/-- `addNewState(triples)`: the source computes `graphData = triplesToGraph(triples)`
and samples the timestamp from the clock; both are taken here as arguments.
A candidate whose nodes and links equal those of the last stored state is
skipped; otherwise the snapshot is appended and, when live and not paused, the
playhead auto-advances to it with an animated render request. -/
def addNewState (v : Viewer) (graphData : GraphData) (timestamp : ℚ) :
    AddResult × Viewer × Option RenderReq :=
  let isDup : Bool :=
    match v.states.getLast? with
    | some lastState =>
        decide (lastState.nodes = graphData.nodes ∧ lastState.links = graphData.links)
    | none => false
  if isDup then (AddResult.deduped, v, none)
  else
    let snap : Snapshot := ⟨graphData.nodes, graphData.links, timestamp⟩
    let v1 : Viewer := { v with states := v.states ++ [snap] }
    if v1.isLive && !v1.isPaused then
      let idx : ℤ := (v1.states.length : ℤ) - 1
      (AddResult.added, { v1 with currentStateIndex := idx }, some ⟨idx, true⟩)
    else (AddResult.added, v1, none)

/-- The playhead bound required whenever the history is non-empty. -/
def indexInBounds (v : Viewer) : Prop :=
  0 ≤ v.currentStateIndex ∧ v.currentStateIndex < (v.states.length : ℤ)

instance indexInBoundsDecidable (v : Viewer) : Decidable (indexInBounds v) :=
  inferInstanceAs (Decidable (_ ∧ _))

/-- Concrete statement terms for the type-policy shape example. -/
def exA : Term := ⟨TermType.namedNode, "http://example.org/a"⟩

def exB : Term := ⟨TermType.namedNode, "http://example.org/b"⟩

def exPerson : Term := ⟨TermType.namedNode, "http://example.org/Person"⟩

def exKnows : Term := ⟨TermType.namedNode, "http://example.org/knows"⟩

def exRdfType : Term := ⟨TermType.namedNode, "http://www.w3.org/1999/02/22-rdf-syntax-ns#type"⟩

/-- The two statements of the type-policy shape example. -/
def exStatements : List Triple := [⟨exA, exRdfType, exPerson⟩, ⟨exA, exKnows, exB⟩]

/-- A one-node graph used to build concrete histories of pairwise distinct
snapshots. -/
def demoGraph (name : String) : GraphData := ⟨[⟨name, name, [], false⟩], []⟩

/-- A viewer reached from the initial state by appending one snapshot. -/
def demoViewer1 : Viewer := (addNewState initialViewer (demoGraph "g0") 1).2.1

/-- A viewer reached from the initial state by appending three distinct
snapshots while live. -/
def demoViewer3 : Viewer :=
  (addNewState (addNewState (addNewState initialViewer
    (demoGraph "g0") 1).2.1 (demoGraph "g1") 2).2.1 (demoGraph "g2") 3).2.1

/-- A viewer reached from the initial state by appending five distinct
snapshots while live. -/
def demoViewer5 : Viewer :=
  (addNewState (addNewState (addNewState (addNewState (addNewState initialViewer
    (demoGraph "g0") 1).2.1 (demoGraph "g1") 2).2.1 (demoGraph "g2") 3).2.1
    (demoGraph "g3") 4).2.1 (demoGraph "g4") 5).2.1

/-- A paused viewer: the user clicks the timeline surface of the live
3-snapshot viewer and seeks back to tick 1. -/
def pausedViewer3 : Viewer := (seekToTick (timelineClick demoViewer3) 1).1

/-- Distance between the timestamp stored at a tick and the sought time
(the default value is irrelevant at the in-range indices used below). -/
def tsDist (tss : List ℚ) (t : ℚ) (j : ℕ) : ℚ := jsAbs (tss.getD j 0 - t)

/-- The timestamps of the stored states, in tick order. -/
def timestamps (v : Viewer) : List ℚ := v.states.map Snapshot.timestamp

/-- A two-snapshot history with timestamps 1 and 3 for the tie-break example. -/
def demoTimes2 : Viewer :=
  ⟨[⟨[⟨"g0", "g0", [], false⟩], [], 1⟩, ⟨[⟨"g1", "g1", [], false⟩], [], 3⟩], 1, true, false⟩

/-- The substring after the last separator, following the words of the
shortener's contract in the specification: it exists exactly when the IRI
contains a separator, and consists of the characters after the last one. -/
def afterLastSep (s : String) : Option String :=
  if s.data.any isSep then
    some (String.mk ((s.data.reverse.takeWhile (fun c => !isSep c)).reverse))
  else none

/-- A literal-object term for the literal-exclusion counterexample. -/
def litFoo : Term := ⟨TermType.literal, "foo"⟩

/-- A single type statement whose object is a literal. -/
def exLiteralTypeStatements : List Triple := [⟨exA, exRdfType, litFoo⟩]

/-- Where a node of the projected graph can come from: the shortened subject of
a statement, or the shortened object of a statement that either has a resource
object or is a type statement projected under the AsNodes policy. -/
def nodeProv (td : TypeDisplay) (tr : Triple) (n : GraphNode) : Prop :=
  n.id = shortenURI tr.subject.value ∨
  (n.id = shortenURI tr.object.value ∧
    (tr.object.termType = TermType.namedNode ∨
      (shortenURI tr.predicate.value = "type" ∧ td = TypeDisplay.nodes)))

/-- Where a link of the projected graph can come from: the shortened components
of a statement that either has a resource object or is a type statement
projected under the AsNodes policy. -/
def linkProv (td : TypeDisplay) (tr : Triple) (lk : GraphLink) : Prop :=
  lk = ⟨shortenURI tr.subject.value, shortenURI tr.object.value,
    shortenURI tr.predicate.value⟩ ∧
  (tr.object.termType = TermType.namedNode ∨
    (shortenURI tr.predicate.value = "type" ∧ td = TypeDisplay.nodes))

/-- Every link in the accumulated pair points at present node ids. -/
def linksClosed (st : List GraphNode × List GraphLink) : Prop :=
  ∀ lk ∈ st.2, (∃ n ∈ st.1, n.id = lk.source) ∧ (∃ n ∈ st.1, n.id = lk.target)

/-- C1: on the statements a-rdf:type-Person, a-knows-b (b a resource), the
projector yields under Off the nodes a and b with empty types and the single
knows link with no Person node; under On the same with a.types = [Person];
under AsNodes additionally a Person type node with empty types and an
a-to-Person link labelled type before the knows link. -/
theorem typePolicyShapes :
    triplesToGraph TypeDisplay.off exStatements =
      ⟨[⟨"a", "a", [], false⟩, ⟨"b", "b", [], false⟩], [⟨"a", "b", "knows"⟩]⟩ ∧
    triplesToGraph TypeDisplay.on exStatements =
      ⟨[⟨"a", "a", ["Person"], false⟩, ⟨"b", "b", [], false⟩], [⟨"a", "b", "knows"⟩]⟩ ∧
    triplesToGraph TypeDisplay.nodes exStatements =
      ⟨[⟨"a", "a", [], false⟩, ⟨"Person", "Person", [], true⟩, ⟨"b", "b", [], false⟩],
        [⟨"a", "Person", "type"⟩, ⟨"a", "b", "knows"⟩]⟩ := by
  refine ⟨rfl, rfl, rfl⟩

/-- After any append attempt the history ends in a snapshot whose nodes and
links are those of the candidate: either the candidate was a duplicate of the
last snapshot, or it was itself appended at the end. -/
lemma addNewState_last (v : Viewer) (gd : GraphData) (t : ℚ) :
    ∃ s, ((addNewState v gd t).2.1).states.getLast? = some s ∧
      s.nodes = gd.nodes ∧ s.links = gd.links := by
  unfold addNewState
  cases h : v.states.getLast? with
  | none =>
      refine ⟨⟨gd.nodes, gd.links, t⟩, ?_, rfl, rfl⟩
      simp only [h]
      rw [if_neg Bool.false_ne_true]
      split <;> simp [List.getLast?_concat]
  | some lastState =>
      by_cases hd : lastState.nodes = gd.nodes ∧ lastState.links = gd.links
      · refine ⟨lastState, ?_, hd.1, hd.2⟩
        simp only [h]
        rw [if_pos (decide_eq_true hd)]
        exact h
      · refine ⟨⟨gd.nodes, gd.links, t⟩, ?_, rfl, rfl⟩
        simp only [h]
        rw [if_neg (by simpa using hd)]
        split <;> simp [List.getLast?_concat]

/-- An append whose candidate nodes and links equal those of the last stored
snapshot is skipped and mutates nothing. -/
lemma addNewState_deduped (v : Viewer) (gd : GraphData) (t : ℚ) (s : Snapshot)
    (hs : v.states.getLast? = some s) (hn : s.nodes = gd.nodes)
    (hl : s.links = gd.links) :
    addNewState v gd t = (AddResult.deduped, v, none) := by
  unfold addNewState
  simp only [hs]
  rw [if_pos (decide_eq_true ⟨hn, hl⟩)]

/-- C2: appending the same (nodes, links) pair twice yields Deduped on the
second call and leaves the history length unchanged, whatever the timestamps:
a candidate structurally equal to the most recent snapshot is never appended. -/
theorem appendIdempotent (v : Viewer) (gd : GraphData) (t1 t2 : ℚ) :
    (addNewState (addNewState v gd t1).2.1 gd t2).1 = AddResult.deduped ∧
    (addNewState (addNewState v gd t1).2.1 gd t2).2.1.states.length =
      (addNewState v gd t1).2.1.states.length := by
  obtain ⟨s, hs, hn, hl⟩ := addNewState_last v gd t1
  rw [addNewState_deduped _ _ t2 s hs hn hl]
  exact ⟨rfl, rfl⟩

/-- C3 counterexample: on the 5-snapshot history, seekToTick(999) does not
clamp: the playhead index becomes 999 (not 4) and the viewer is not live. -/
theorem seekNoClampCounterexample :
    demoViewer5.states.length = 5 ∧
    (seekToTick demoViewer5 999).1.currentStateIndex = 999 ∧
    (seekToTick demoViewer5 999).1.isLive = false := by
  refine ⟨rfl, rfl, rfl⟩

/-- C3 amended: seekToTick performs no clamping: it sets the playhead index to
its argument unconditionally, and the viewer ends live iff that argument equals
the last tick and the viewer was not already paused; on the live 5-snapshot
history, seekToTick(999) yields index 999 and mode Paused, and seekToTick(2)
yields mode Paused. -/
theorem seekToTickNoClamp (v : Viewer) (k : ℤ) :
    (seekToTick v k).1.currentStateIndex = k ∧
    (seekToTick v k).1.isLive = (decide (k = (v.states.length : ℤ) - 1) && !v.isPaused) ∧
    (seekToTick demoViewer5 999).1.currentStateIndex = 999 ∧
    (seekToTick demoViewer5 999).1.isLive = false ∧
    (seekToTick demoViewer5 2).1.isLive = false := by
  refine ⟨rfl, rfl, rfl, rfl, rfl⟩

/-- C4 counterexample: the paused viewer on a 3-snapshot history seeks exactly
to the last tick (2) and nevertheless stays paused: the live flag remains
false, against the claimed Paused-to-Live transition. -/
theorem pausedSeekToMaxCounterexample :
    pausedViewer3.states.length = 3 ∧
    pausedViewer3.isLive = false ∧
    pausedViewer3.isPaused = true ∧
    (seekToTick pausedViewer3 2).1.isLive = false := by
  refine ⟨rfl, rfl, rfl, rfl⟩

/-- C4 amended: after seekToTick (and after seekToTime) on a non-empty history
the viewer is live iff the landing tick equals the last tick AND the viewer was
not paused before the seek; in particular a paused viewer stays paused even
when seeking exactly to the newest tick. -/
theorem seekModeIff (v : Viewer) (h : v.states ≠ []) :
    (∀ k : ℤ, ((seekToTick v k).1.isLive = true ↔
        (k = (v.states.length : ℤ) - 1 ∧ v.isPaused = false))) ∧
    (∀ t : ℚ, ((seekToTime v t).1.isLive = true ↔
        ((seekToTime v t).1.currentStateIndex = (v.states.length : ℤ) - 1 ∧
          v.isPaused = false))) := by
  constructor
  · intro k
    simp [seekToTick, updateLiveStatus]
  · intro t
    cases hs : v.states with
    | nil => exact absurd hs h
    | cons s0 rest =>
        simp [seekToTime, hs, updateLiveStatus]

/-- Witness for the amended C4 on the live 3-snapshot viewer. -/
theorem seekModeIffWitness :
    demoViewer3.states ≠ [] ∧
    ((∀ k : ℤ, ((seekToTick demoViewer3 k).1.isLive = true ↔
        (k = (demoViewer3.states.length : ℤ) - 1 ∧ demoViewer3.isPaused = false))) ∧
    (∀ t : ℚ, ((seekToTime demoViewer3 t).1.isLive = true ↔
        ((seekToTime demoViewer3 t).1.currentStateIndex =
            (demoViewer3.states.length : ℤ) - 1 ∧
          demoViewer3.isPaused = false)))) :=
  ⟨by decide, seekModeIff demoViewer3 (by decide)⟩

/-- In-range `getD` agrees with indexed access. -/
lemma getD_of_lt (l : List ℚ) (i : ℕ) (h : i < l.length) : l.getD i 0 = l[i] := by
  rw [List.getD_eq_getElem?_getD, List.getElem?_eq_getElem h]
  rfl

/-- Invariant of the seekToTime scanning loop: if the running best index is in
range with the recorded distance, no already-scanned index beats it, and every
index before it is strictly worse, then the loop returns the first index of
minimal distance over the whole timestamp list. -/
lemma loopClosest_spec (t : ℚ) (tss : List ℚ) :
    ∀ (l : List ℚ) (i best : ℕ) (bestDiff : ℚ),
      l = tss.drop i → best < tss.length → bestDiff = tsDist tss t best →
      (∀ j, j < i → bestDiff ≤ tsDist tss t j) →
      (∀ j, j < best → bestDiff < tsDist tss t j) →
      loopClosest t l i best bestDiff < tss.length ∧
      (∀ j, j < tss.length →
        tsDist tss t (loopClosest t l i best bestDiff) ≤ tsDist tss t j) ∧
      (∀ j, j < loopClosest t l i best bestDiff →
        tsDist tss t (loopClosest t l i best bestDiff) < tsDist tss t j) := by
  intro l
  induction l with
  | nil =>
      intro i best bestDiff hl hb hbd hmin hfirst
      subst hbd
      have hlen : tss.length ≤ i := List.drop_eq_nil_iff.mp hl.symm
      exact ⟨hb, fun j hj => hmin j (lt_of_lt_of_le hj hlen), hfirst⟩
  | cons x l2 ih =>
      intro i best bestDiff hl hb hbd hmin hfirst
      have hi : i < tss.length := by
        rcases Nat.lt_or_ge i tss.length with h1 | h1
        · exact h1
        · rw [List.drop_eq_nil_iff.mpr h1] at hl
          exact absurd hl (List.cons_ne_nil x l2)
      have hdc := hl.trans (List.drop_eq_getElem_cons hi)
      injection hdc with hx hl2
      have hxd : jsAbs (x - t) = tsDist tss t i := by
        rw [hx, tsDist, getD_of_lt tss i hi]
      simp only [loopClosest]
      by_cases hcmp : jsAbs (x - t) < bestDiff
      · rw [if_pos hcmp]
        refine ih (i + 1) i (jsAbs (x - t)) hl2 hi hxd ?_ ?_
        · intro j hj
          rcases Nat.lt_succ_iff_lt_or_eq.mp hj with hj2 | hj2
          · exact le_of_lt (lt_of_lt_of_le hcmp (hmin j hj2))
          · subst hj2
            exact le_of_eq hxd
        · intro j hj
          exact lt_of_lt_of_le hcmp (hmin j hj)
      · rw [if_neg hcmp]
        refine ih (i + 1) best bestDiff hl2 hb hbd ?_ hfirst
        intro j hj
        rcases Nat.lt_succ_iff_lt_or_eq.mp hj with hj2 | hj2
        · exact hmin j hj2
        · subst hj2
          rw [← hxd]
          exact le_of_not_lt hcmp

lemma timestamps_length (v : Viewer) : (timestamps v).length = v.states.length := by
  simp [timestamps]

/-- What seekToTime does on a non-empty history: it keeps the history, and
moves the playhead to the first tick of minimal timestamp distance. -/
lemma seekToTime_spec (v : Viewer) (t : ℚ) (h : v.states ≠ []) :
    ∃ r : ℕ, (seekToTime v t).1.currentStateIndex = (r : ℤ) ∧
      (seekToTime v t).1.states = v.states ∧ r < v.states.length ∧
      (∀ j, j < v.states.length →
        tsDist (timestamps v) t r ≤ tsDist (timestamps v) t j) ∧
      (∀ j, j < r → tsDist (timestamps v) t r < tsDist (timestamps v) t j) := by
  cases hs : v.states with
  | nil => exact absurd hs h
  | cons s0 rest =>
      have hts : timestamps v = s0.timestamp :: rest.map Snapshot.timestamp := by
        simp [timestamps, hs]
      have hbd : jsAbs (s0.timestamp - t) = tsDist (timestamps v) t 0 := by
        rw [hts]
        rfl
      have key := loopClosest_spec t (timestamps v) (rest.map Snapshot.timestamp) 1 0
        (jsAbs (s0.timestamp - t))
        (by rw [hts]; rfl)
        (by rw [hts]; exact Nat.succ_pos _)
        hbd
        (by
          intro j hj
          have hj0 : j = 0 := Nat.lt_one_iff.mp hj
          subst hj0
          exact le_of_eq hbd)
        (by
          intro j hj
          exact absurd hj (Nat.not_lt_zero j))
      obtain ⟨k1, k2, k3⟩ := key
      rw [timestamps_length, hs] at k1 k2
      refine ⟨loopClosest t (rest.map Snapshot.timestamp) 1 0 (jsAbs (s0.timestamp - t)),
        ?_, ?_, k1, k2, k3⟩
      · simp [seekToTime, hs, updateLiveStatus]
      · simp [seekToTime, hs, updateLiveStatus]

/-- The modelled `Math.abs` is the absolute value on rationals. -/
lemma jsAbs_eq_abs (x : ℚ) : jsAbs x = |x| := by
  unfold jsAbs
  split
  · exact (abs_of_neg (by assumption)).symm
  · exact (abs_of_nonneg (le_of_not_lt (by assumption))).symm

/-- C7: on every non-empty history, seekToTime lands on the tick whose
timestamp has minimal absolute difference to the sought time, every earlier
tick being strictly worse (ties break toward the earlier tick, the first
minimum found scanning from tick 0); on timestamps 1 and 3, seeking time 2
selects tick 0. -/
theorem nearestTimeSeekFirstMin (v : Viewer) (t : ℚ) (h : v.states ≠ []) :
    (∃ r : ℕ, (seekToTime v t).1.currentStateIndex = (r : ℤ) ∧ r < v.states.length ∧
      (∀ j, j < v.states.length →
        |(timestamps v).getD r 0 - t| ≤ |(timestamps v).getD j 0 - t|) ∧
      (∀ j, j < r →
        |(timestamps v).getD r 0 - t| < |(timestamps v).getD j 0 - t|)) ∧
    (seekToTime demoTimes2 2).1.currentStateIndex = 0 := by
  obtain ⟨r, h1, _, h3, h4, h5⟩ := seekToTime_spec v t h
  refine ⟨⟨r, h1, h3, ?_, ?_⟩, ?_⟩
  · intro j hj
    have := h4 j hj
    simpa [tsDist, jsAbs_eq_abs] using this
  · intro j hj
    have := h5 j hj
    simpa [tsDist, jsAbs_eq_abs] using this
  · norm_num [seekToTime, demoTimes2, loopClosest, jsAbs, updateLiveStatus]

/-- Witness for C7 at the concrete two-snapshot history and time 2. -/
theorem nearestTimeSeekFirstMinWitness :
    demoTimes2.states ≠ [] ∧
    ((∃ r : ℕ, (seekToTime demoTimes2 2).1.currentStateIndex = (r : ℤ) ∧
        r < demoTimes2.states.length ∧
        (∀ j, j < demoTimes2.states.length →
          |(timestamps demoTimes2).getD r 0 - 2| ≤ |(timestamps demoTimes2).getD j 0 - 2|) ∧
        (∀ j, j < r →
          |(timestamps demoTimes2).getD r 0 - 2| < |(timestamps demoTimes2).getD j 0 - 2|)) ∧
      (seekToTime demoTimes2 2).1.currentStateIndex = 0) :=
  ⟨by decide, nearestTimeSeekFirstMin demoTimes2 2 (by decide)⟩

/-- C5 counterexample: the reachable live 5-snapshot viewer satisfies the
playhead bound, but the playhead-mutating operation seekToTick does not
preserve it: seeking to tick 999 leaves a 5-state history with index 999. -/
theorem playheadBoundViolation :
    indexInBounds demoViewer5 ∧
    ¬ indexInBounds (seekToTick demoViewer5 999).1 ∧
    (seekToTick demoViewer5 999).1.states.length = 5 := by
  refine ⟨by decide, by decide, rfl⟩

/-- Case analysis of an append attempt: either the candidate was a duplicate
and the viewer is unchanged, or the snapshot was appended at the end and the
playhead either advanced to the new last tick or stayed where it was. -/
lemma addNewState_states_index (v : Viewer) (gd : GraphData) (tmsp : ℚ) :
    ((addNewState v gd tmsp).2.1 = v) ∨
    ((addNewState v gd tmsp).2.1.states = v.states ++ [⟨gd.nodes, gd.links, tmsp⟩] ∧
      ((addNewState v gd tmsp).2.1.currentStateIndex = (v.states.length : ℤ) ∨
        (addNewState v gd tmsp).2.1.currentStateIndex = v.currentStateIndex)) := by
  unfold addNewState
  cases hlast : v.states.getLast? with
  | none =>
      right
      dsimp only
      rw [if_neg Bool.false_ne_true]
      split
      · refine ⟨rfl, Or.inl ?_⟩
        dsimp only
        simp only [List.length_append, List.length_cons, List.length_nil]
        push_cast
        omega
      · exact ⟨rfl, Or.inr rfl⟩
  | some lastState =>
      by_cases hd : lastState.nodes = gd.nodes ∧ lastState.links = gd.links
      · left
        dsimp only
        rw [if_pos (decide_eq_true hd)]
      · right
        dsimp only
        rw [if_neg (by simpa using hd)]
        split
        · refine ⟨rfl, Or.inl ?_⟩
          dsimp only
          simp only [List.length_append, List.length_cons, List.length_nil]
          push_cast
          omega
        · exact ⟨rfl, Or.inr rfl⟩

/-- C5 amended: on a non-empty history satisfying the playhead bound, the bound
is preserved by seekToTime, goLive and append unconditionally, and by
seekToTick exactly when its argument already lies within the tick range (the
function performs no clamping of its own). -/
theorem playheadBoundsPreserved (v : Viewer) (h1 : v.states ≠ [])
    (h2 : indexInBounds v) :
    (∀ t : ℚ, indexInBounds (seekToTime v t).1) ∧
    indexInBounds (goToLive v).1 ∧
    (∀ gd tmsp, indexInBounds (addNewState v gd tmsp).2.1) ∧
    (∀ k : ℤ, 0 ≤ k → k < (v.states.length : ℤ) →
      indexInBounds (seekToTick v k).1) := by
  refine ⟨?_, ?_, ?_, ?_⟩
  · intro t
    obtain ⟨r, hidx, hst, hlt, _, _⟩ := seekToTime_spec v t h1
    constructor
    · rw [hidx]
      exact Int.natCast_nonneg r
    · rw [hidx, hst]
      exact_mod_cast hlt
  · have hpos : 0 < v.states.length := List.length_pos.mpr h1
    unfold goToLive
    rw [if_pos hpos]
    unfold indexInBounds updateLiveStatus
    constructor
    · simp only []
      omega
    · simp only []
      omega
  · intro gd tmsp
    rcases addNewState_states_index v gd tmsp with hcase | ⟨hst, hidx⟩
    · rw [hcase]
      exact h2
    · obtain ⟨ha, hb⟩ := h2
      unfold indexInBounds
      rw [hst]
      rcases hidx with hidx | hidx
      · rw [hidx]
        simp only [List.length_append, List.length_cons, List.length_nil]
        refine ⟨Int.natCast_nonneg _, ?_⟩
        push_cast
        omega
      · rw [hidx]
        simp only [List.length_append, List.length_cons, List.length_nil]
        refine ⟨ha, ?_⟩
        push_cast
        omega
  · intro k hk0 hk1
    exact ⟨hk0, hk1⟩

/-- Witness for the amended C5 on the live 5-snapshot viewer. -/
theorem playheadBoundsPreservedWitness :
    (demoViewer5.states ≠ [] ∧ indexInBounds demoViewer5) ∧
    ((∀ t : ℚ, indexInBounds (seekToTime demoViewer5 t).1) ∧
      indexInBounds (goToLive demoViewer5).1 ∧
      (∀ gd tmsp, indexInBounds (addNewState demoViewer5 gd tmsp).2.1) ∧
      (∀ k : ℤ, 0 ≤ k → k < (demoViewer5.states.length : ℤ) →
        indexInBounds (seekToTick demoViewer5 k).1)) :=
  ⟨⟨by decide, by decide⟩, playheadBoundsPreserved demoViewer5 (by decide) (by decide)⟩

/-- C6: when an append actually stores a new snapshot on a non-empty history
(mode coherence as maintained by the handlers: paused is the negation of live):
a live viewer auto-advances the playhead to the newest tick (the old history
length) and requests an animated render, while a paused viewer keeps its
playhead index unchanged; concretely, the paused viewer at index 1 of a
3-snapshot history still has index 1 after a 4th snapshot is appended. -/
theorem liveAutoAdvance (v : Viewer) (gd : GraphData) (tmsp : ℚ)
    (hmode : v.isPaused = !v.isLive) (hne : v.states ≠ [])
    (hadd : (addNewState v gd tmsp).1 = AddResult.added) :
    ((v.isLive = true →
      (addNewState v gd tmsp).2.1.currentStateIndex = (v.states.length : ℤ) ∧
      (addNewState v gd tmsp).2.2 = some ⟨(v.states.length : ℤ), true⟩) ∧
    (v.isLive = false →
      (addNewState v gd tmsp).2.1.currentStateIndex = v.currentStateIndex)) ∧
    (addNewState pausedViewer3 (demoGraph "g3") 4).2.1.currentStateIndex = 1 := by
  refine ⟨?_, rfl⟩
  unfold addNewState at hadd ⊢
  by_cases hdup : (match v.states.getLast? with
      | some lastState =>
          decide (lastState.nodes = gd.nodes ∧ lastState.links = gd.links)
      | none => false) = true
  · rw [if_pos hdup] at hadd
    exact absurd hadd (by simp)
  · rw [if_neg hdup]
    constructor
    · intro hlive
      have hp : v.isPaused = false := by rw [hmode, hlive]; rfl
      have hcond : (({ v with states :=
            v.states ++ [⟨gd.nodes, gd.links, tmsp⟩] } : Viewer).isLive &&
          !({ v with states := v.states ++ [⟨gd.nodes, gd.links, tmsp⟩] } : Viewer).isPaused)
            = true := by
        simp [hlive, hp]
      rw [if_pos hcond]
      constructor
      · simp only [List.length_append, List.length_cons, List.length_nil]
        push_cast
        ring
      · simp only [List.length_append, List.length_cons, List.length_nil]
        have : ((v.states.length + (0 + 1) : ℕ) : ℤ) - 1 = (v.states.length : ℤ) := by
          push_cast
          ring
        rw [this]
    · intro hlive
      have hcond : ¬ ((({ v with states :=
            v.states ++ [⟨gd.nodes, gd.links, tmsp⟩] } : Viewer).isLive &&
          !({ v with states := v.states ++ [⟨gd.nodes, gd.links, tmsp⟩] } : Viewer).isPaused)
            = true) := by
        simp [hlive]
      rw [if_neg hcond]

/-- Witness for C6: appending a distinct second snapshot to the live one-state
viewer. -/
theorem liveAutoAdvanceWitness :
    (demoViewer1.isPaused = !demoViewer1.isLive ∧ demoViewer1.states ≠ [] ∧
      (addNewState demoViewer1 (demoGraph "g1") 2).1 = AddResult.added) ∧
    (((demoViewer1.isLive = true →
        (addNewState demoViewer1 (demoGraph "g1") 2).2.1.currentStateIndex =
          (demoViewer1.states.length : ℤ) ∧
        (addNewState demoViewer1 (demoGraph "g1") 2).2.2 =
          some ⟨(demoViewer1.states.length : ℤ), true⟩) ∧
      (demoViewer1.isLive = false →
        (addNewState demoViewer1 (demoGraph "g1") 2).2.1.currentStateIndex =
          demoViewer1.currentStateIndex)) ∧
    (addNewState pausedViewer3 (demoGraph "g3") 4).2.1.currentStateIndex = 1) :=
  ⟨⟨by decide, by decide, by decide⟩,
    liveAutoAdvance demoViewer1 (demoGraph "g1") 2 (by decide) (by decide) (by decide)⟩

/-- C9 counterexample: an IRI ending in a separator is returned unchanged by
the shortener, not shortened to the empty substring after the last separator. -/
theorem trailingSeparatorCounterexample :
    shortenURI "http://example.org/" = "http://example.org/" ∧
    shortenURI "http://example.org/" ≠ "" := by
  refine ⟨rfl, by decide⟩

lemma takeWhile_append_all {α : Type} (p : α → Bool) (l l2 : List α)
    (h : ∀ x ∈ l, p x = true) :
    (l ++ l2).takeWhile p = l ++ l2.takeWhile p := by
  induction l with
  | nil => rfl
  | cons a l ih =>
      have ha : p a = true := h a (List.mem_cons_self a l)
      simp [List.takeWhile_cons, ha, ih (fun x hx => h x (List.mem_cons_of_mem a hx))]

lemma takeWhile_append_stop {α : Type} (p : α → Bool) (l l2 : List α)
    (h : ∃ x ∈ l, p x = false) :
    (l ++ l2).takeWhile p = l.takeWhile p := by
  induction l with
  | nil =>
      obtain ⟨x, hx, _⟩ := h
      exact absurd hx (List.not_mem_nil x)
  | cons a l ih =>
      by_cases ha : p a = true
      · have h2 : ∃ x ∈ l, p x = false := by
          obtain ⟨x, hx, hpx⟩ := h
          rcases List.mem_cons.mp hx with h3 | h3
          · subst h3
            rw [hpx] at ha
            exact absurd ha (by simp)
          · exact ⟨x, h3, hpx⟩
        simp [List.takeWhile_cons, ha, ih h2]
      · have ha2 : p a = false := by
          cases hpa : p a
          · rfl
          · exact absurd hpa ha
        simp [List.takeWhile_cons, ha2]

/-- The scan for the shortening pattern finds exactly the run after the last
separator, provided that run is nonempty; the first matching start position is
necessarily the last separator of the string, because the captured run may not
contain a separator yet must reach the end of the string. -/
lemma scanMatch_eq (cs : List Char) :
    scanMatch cs =
      if cs.any isSep then
        (if ((cs.reverse.takeWhile (fun c => !isSep c)).reverse).isEmpty then none
          else some ((cs.reverse.takeWhile (fun c => !isSep c)).reverse))
      else none := by
  induction cs with
  | nil => rfl
  | cons c cs ih =>
      by_cases hsc : isSep c = true
      · by_cases hrest : cs.any isSep = true
        · have hcond : ¬ ((isSep c && !cs.isEmpty && cs.all fun d => !isSep d) = true) := by
            obtain ⟨x, hx, hpx⟩ := List.any_eq_true.mp hrest
            simp only [Bool.and_eq_true, List.all_eq_true]
            rintro ⟨-, hall⟩
            have := hall x hx
            rw [hpx] at this
            exact absurd this (by simp)
          have hsuffix : ((c :: cs).reverse.takeWhile fun d => !isSep d) =
              (cs.reverse.takeWhile fun d => !isSep d) := by
            rw [List.reverse_cons]
            apply takeWhile_append_stop
            obtain ⟨x, hx, hpx⟩ := List.any_eq_true.mp hrest
            exact ⟨x, List.mem_reverse.mpr hx, by simp [hpx]⟩
          simp only [scanMatch]
          rw [if_neg hcond, ih, hsuffix]
          simp [hrest, hsc]
        · have hrest2 : cs.any isSep = false := by
            cases hq : cs.any isSep
            · rfl
            · exact absurd hq hrest
          have hall : cs.all (fun d => !isSep d) = true := by
            rw [List.all_eq_true]
            intro x hx
            have := List.any_eq_false.mp hrest2 x hx
            simp [this]
          by_cases hne : cs.isEmpty = true
          · have hnil : cs = [] := List.isEmpty_iff.mp hne
            subst hnil
            simp [scanMatch, hsc]
          · have hne2 : cs.isEmpty = false := by
              cases hq : cs.isEmpty
              · rfl
              · exact absurd hq hne
            have hcond : (isSep c && !cs.isEmpty && cs.all fun d => !isSep d) = true := by
              simp [hsc, hne2, hall]
            have hsuffix : ((c :: cs).reverse.takeWhile fun d => !isSep d) = cs.reverse := by
              rw [List.reverse_cons]
              rw [takeWhile_append_all]
              · simp [List.takeWhile_cons, hsc]
              · intro x hx
                have := List.any_eq_false.mp hrest2 x (List.mem_reverse.mp hx)
                simp [this]
            simp only [scanMatch]
            rw [if_pos hcond, hsuffix]
            have hany : (c :: cs).any isSep = true := by simp [hsc]
            rw [if_pos hany]
            rw [List.reverse_reverse]
            rw [if_neg (by simp [hne2])]
      · have hsc2 : isSep c = false := by
          cases hq : isSep c
          · rfl
          · exact absurd hq hsc
        have hcond : ¬ ((isSep c && !cs.isEmpty && cs.all fun d => !isSep d) = true) := by
          simp [hsc2]
        simp only [scanMatch]
        rw [if_neg hcond, ih]
        have hany : (c :: cs).any isSep = cs.any isSep := by simp [hsc2]
        rw [hany]
        by_cases hrest : cs.any isSep = true
        · have hsuffix : ((c :: cs).reverse.takeWhile fun d => !isSep d) =
              (cs.reverse.takeWhile fun d => !isSep d) := by
            rw [List.reverse_cons]
            apply takeWhile_append_stop
            obtain ⟨x, hx, hpx⟩ := List.any_eq_true.mp hrest
            exact ⟨x, List.mem_reverse.mpr hx, by simp [hpx]⟩
          rw [hsuffix]
        · have hrest2 : cs.any isSep = false := by
            cases hq : cs.any isSep
            · rfl
            · exact absurd hq hrest
          rw [hrest2]
          simp

/-- C9 amended: the shortener returns the substring after the last slash or
hash when that substring is nonempty; when the IRI has no separator, or ends
with a separator (so that substring is empty), the IRI is returned unchanged.
The function remains pure and total. -/
theorem shortenURISpec (s : String) :
    shortenURI s =
      match afterLastSep s with
      | none => s
      | some suf => if suf = "" then s else suf := by
  unfold shortenURI afterLastSep
  rw [scanMatch_eq]
  by_cases h : s.data.any isSep = true
  · rw [if_pos h, if_pos h]
    by_cases he : ((s.data.reverse.takeWhile fun c => !isSep c)).reverse.isEmpty = true
    · rw [if_pos he]
      rw [List.isEmpty_iff.mp he]
      rfl
    · rw [if_neg he]
      have hne : ¬ (String.mk ((s.data.reverse.takeWhile fun c => !isSep c)).reverse = "") := by
        intro hc
        have := congrArg String.data hc
        simp only [String.data] at this
        rw [this] at he
        exact he rfl
      exact (if_neg hne).symm
  · rw [if_neg h, if_neg h]

/-- C8 counterexample: under the AsNodes policy, a type statement whose object
is the literal foo produces a node with the literal's value (and a link to it);
the build pass of the type branch never tests the object's term kind. -/
theorem literalNodeCounterexample :
    triplesToGraph TypeDisplay.nodes exLiteralTypeStatements =
      ⟨[⟨"a", "a", [], false⟩, ⟨"foo", "foo", [], true⟩], [⟨"a", "foo", "type"⟩]⟩ ∧
    (⟨"foo", "foo", [], true⟩ : GraphNode) ∈
      (triplesToGraph TypeDisplay.nodes exLiteralTypeStatements).nodes := by
  refine ⟨rfl, by decide⟩

lemma mem_ensureNode {ns : List GraphNode} {m a : GraphNode}
    (h : a ∈ ensureNode ns m) : a ∈ ns ∨ a = m := by
  unfold ensureNode at h
  split at h
  · exact Or.inl h
  · rcases List.mem_append.mp h with h1 | h1
    · exact Or.inl h1
    · right
      simpa using h1

/-- One build step only adds nodes and links with the step's statement as
provenance. -/
lemma buildStep_prov_shape (td : TypeDisplay) (m : List (String × List String))
    (st : List GraphNode × List GraphLink) (tr : Triple) :
    (∀ n ∈ (buildStep td m st tr).1, n ∈ st.1 ∨ nodeProv td tr n) ∧
    (∀ lk ∈ (buildStep td m st tr).2, lk ∈ st.2 ∨ linkProv td tr lk) := by
  unfold buildStep
  dsimp only
  by_cases hp : shortenURI tr.predicate.value = "type"
  · rw [if_pos hp]
    by_cases hn : td = TypeDisplay.nodes
    · rw [if_pos hn]
      constructor
      · intro n hmem
        rcases mem_ensureNode hmem with h2 | h2
        · rcases mem_ensureNode h2 with h3 | h3
          · exact Or.inl h3
          · subst h3
            exact Or.inr (Or.inl rfl)
        · subst h2
          exact Or.inr (Or.inr ⟨rfl, Or.inr ⟨hp, hn⟩⟩)
      · intro lk hmem
        rcases List.mem_append.mp hmem with h2 | h2
        · exact Or.inl h2
        · have h3 : lk = ⟨shortenURI tr.subject.value, shortenURI tr.object.value,
              shortenURI tr.predicate.value⟩ := by
            simpa using h2
          rw [h3]
          exact Or.inr ⟨rfl, Or.inr ⟨hp, hn⟩⟩
    · rw [if_neg hn]
      constructor
      · intro n hmem
        rcases mem_ensureNode hmem with h2 | h2
        · exact Or.inl h2
        · subst h2
          exact Or.inr (Or.inl rfl)
      · intro lk hmem
        exact Or.inl hmem
  · rw [if_neg hp]
    by_cases ho : tr.object.termType = TermType.namedNode
    · rw [if_pos ho]
      constructor
      · intro n hmem
        rcases mem_ensureNode hmem with h2 | h2
        · rcases mem_ensureNode h2 with h3 | h3
          · exact Or.inl h3
          · subst h3
            exact Or.inr (Or.inl rfl)
        · subst h2
          exact Or.inr (Or.inr ⟨rfl, Or.inl ho⟩)
      · intro lk hmem
        rcases List.mem_append.mp hmem with h2 | h2
        · exact Or.inl h2
        · have h3 : lk = ⟨shortenURI tr.subject.value, shortenURI tr.object.value,
              shortenURI tr.predicate.value⟩ := by
            simpa using h2
          rw [h3]
          exact Or.inr ⟨rfl, Or.inl ho⟩
    · rw [if_neg ho]
      constructor
      · intro n hmem
        rcases mem_ensureNode hmem with h2 | h2
        · exact Or.inl h2
        · subst h2
          exact Or.inr (Or.inl rfl)
      · intro lk hmem
        exact Or.inl hmem

/-- Provenance is preserved through the whole build pass. -/
lemma buildSteps_prov (td : TypeDisplay) (m : List (String × List String))
    (triples : List Triple) :
    ∀ (l : List Triple) (st : List GraphNode × List GraphLink),
      (∀ tr ∈ l, tr ∈ triples) →
      (∀ n ∈ st.1, ∃ tr ∈ triples, nodeProv td tr n) →
      (∀ lk ∈ st.2, ∃ tr ∈ triples, linkProv td tr lk) →
      (∀ n ∈ (l.foldl (buildStep td m) st).1, ∃ tr ∈ triples, nodeProv td tr n) ∧
      (∀ lk ∈ (l.foldl (buildStep td m) st).2, ∃ tr ∈ triples, linkProv td tr lk) := by
  intro l
  induction l with
  | nil =>
      intro st _ hn hl
      exact ⟨hn, hl⟩
  | cons tr l2 ih =>
      intro st hsub hn hl
      have htr : tr ∈ triples := hsub tr (List.mem_cons_self tr l2)
      rw [List.foldl_cons]
      refine ih (buildStep td m st tr)
        (fun x hx => hsub x (List.mem_cons_of_mem tr hx)) ?_ ?_
      · intro n hmem
        rcases (buildStep_prov_shape td m st tr).1 n hmem with h2 | h2
        · exact hn n h2
        · exact ⟨tr, htr, h2⟩
      · intro lk hmem
        rcases (buildStep_prov_shape td m st tr).2 lk hmem with h2 | h2
        · exact hl lk h2
        · exact ⟨tr, htr, h2⟩

/-- C8 amended: every node of a projection is the shortened subject of some
statement, or the shortened object of a statement whose object is a resource
or which is a type statement under the AsNodes policy, and likewise every link;
hence a statement whose object is a literal and whose predicate does not
shorten to type contributes neither a node for its object nor a link, under
every policy, while under AsNodes a type statement with a literal object does
contribute both. -/
theorem literalObjectsExcluded (td : TypeDisplay) (triples : List Triple) :
    (∀ n ∈ (triplesToGraph td triples).nodes, ∃ tr ∈ triples, nodeProv td tr n) ∧
    (∀ lk ∈ (triplesToGraph td triples).links, ∃ tr ∈ triples, linkProv td tr lk) :=
  buildSteps_prov td (buildNodeTypes triples) triples triples ([], [])
    (fun _ hx => hx)
    (fun n hn => absurd hn (List.not_mem_nil n))
    (fun lk hlk => absurd hlk (List.not_mem_nil lk))

/-- Witness for the amended C8 at a concrete projection and node. -/
theorem literalObjectsExcludedWitness :
    ((⟨"a", "a", [], false⟩ : GraphNode) ∈
      (triplesToGraph TypeDisplay.off exStatements).nodes) ∧
    (∃ tr ∈ exStatements, nodeProv TypeDisplay.off tr ⟨"a", "a", [], false⟩) :=
  ⟨by decide,
    (literalObjectsExcluded TypeDisplay.off exStatements).1 ⟨"a", "a", [], false⟩
      (by decide)⟩

lemma ensureNode_mono {ns : List GraphNode} {m a : GraphNode} (h : a ∈ ns) :
    a ∈ ensureNode ns m := by
  unfold ensureNode
  split
  · exact h
  · exact List.mem_append.mpr (Or.inl h)

lemma ensureNode_has_id (ns : List GraphNode) (m : GraphNode) :
    ∃ a ∈ ensureNode ns m, a.id = m.id := by
  unfold ensureNode
  split
  · rename_i hhas
    unfold hasNode at hhas
    obtain ⟨a, ha, hid⟩ := List.any_eq_true.mp hhas
    exact ⟨a, ha, of_decide_eq_true hid⟩
  · exact ⟨m, List.mem_append.mpr (Or.inr (by simp)), rfl⟩

/-- Each build step either adds no link, or adds one link whose endpoints both
have nodes in the step's (grown) node list; existing nodes are kept. -/
lemma buildStep_shape (td : TypeDisplay) (m : List (String × List String))
    (st : List GraphNode × List GraphLink) (tr : Triple) :
    (∃ ns, buildStep td m st tr = (ns, st.2) ∧ ∀ a ∈ st.1, a ∈ ns) ∨
    (∃ ns lk, buildStep td m st tr = (ns, st.2 ++ [lk]) ∧ (∀ a ∈ st.1, a ∈ ns) ∧
      (∃ a ∈ ns, a.id = lk.source) ∧ (∃ a ∈ ns, a.id = lk.target)) := by
  unfold buildStep
  dsimp only
  by_cases hp : shortenURI tr.predicate.value = "type"
  · rw [if_pos hp]
    by_cases hn : td = TypeDisplay.nodes
    · rw [if_pos hn]
      right
      refine ⟨_, _, rfl, ?_, ?_, ?_⟩
      · intro a ha
        exact ensureNode_mono (ensureNode_mono ha)
      · obtain ⟨a, ha, hid⟩ := ensureNode_has_id st.1
          ⟨shortenURI tr.subject.value, shortenURI tr.subject.value,
            typesFor td m (shortenURI tr.subject.value), false⟩
        exact ⟨a, ensureNode_mono ha, hid⟩
      · obtain ⟨a, ha, hid⟩ := ensureNode_has_id
          (ensureNode st.1 ⟨shortenURI tr.subject.value, shortenURI tr.subject.value,
            typesFor td m (shortenURI tr.subject.value), false⟩)
          ⟨shortenURI tr.object.value, shortenURI tr.object.value, [], true⟩
        exact ⟨a, ha, hid⟩
    · rw [if_neg hn]
      left
      exact ⟨_, rfl, fun a ha => ensureNode_mono ha⟩
  · rw [if_neg hp]
    by_cases ho : tr.object.termType = TermType.namedNode
    · rw [if_pos ho]
      right
      refine ⟨_, _, rfl, ?_, ?_, ?_⟩
      · intro a ha
        exact ensureNode_mono (ensureNode_mono ha)
      · obtain ⟨a, ha, hid⟩ := ensureNode_has_id st.1
          ⟨shortenURI tr.subject.value, shortenURI tr.subject.value,
            typesFor td m (shortenURI tr.subject.value), false⟩
        exact ⟨a, ensureNode_mono ha, hid⟩
      · obtain ⟨a, ha, hid⟩ := ensureNode_has_id
          (ensureNode st.1 ⟨shortenURI tr.subject.value, shortenURI tr.subject.value,
            typesFor td m (shortenURI tr.subject.value), false⟩)
          ⟨shortenURI tr.object.value, shortenURI tr.object.value,
            typesFor td m (shortenURI tr.object.value), false⟩
        exact ⟨a, ha, hid⟩
    · rw [if_neg ho]
      left
      exact ⟨_, rfl, fun a ha => ensureNode_mono ha⟩

lemma foldl_linksClosed (td : TypeDisplay) (m : List (String × List String)) :
    ∀ (l : List Triple) (st : List GraphNode × List GraphLink),
      linksClosed st → linksClosed (l.foldl (buildStep td m) st) := by
  intro l
  induction l with
  | nil =>
      intro st h
      exact h
  | cons tr l2 ih =>
      intro st h
      rw [List.foldl_cons]
      apply ih
      rcases buildStep_shape td m st tr with ⟨ns, heq, hmono⟩ |
        ⟨ns, lk0, heq, hmono, hsrc, htgt⟩
      · intro lk hlk
        rw [heq] at hlk ⊢
        obtain ⟨⟨a, ha, hida⟩, ⟨b, hb, hidb⟩⟩ := h lk hlk
        exact ⟨⟨a, hmono a ha, hida⟩, ⟨b, hmono b hb, hidb⟩⟩
      · intro lk hlk
        rw [heq] at hlk ⊢
        rcases List.mem_append.mp hlk with h1 | h1
        · obtain ⟨⟨a, ha, hida⟩, ⟨b, hb, hidb⟩⟩ := h lk h1
          exact ⟨⟨a, hmono a ha, hida⟩, ⟨b, hmono b hb, hidb⟩⟩
        · have h2 : lk = lk0 := by simpa using h1
          subst h2
          exact ⟨hsrc, htgt⟩

/-- C10: in every projection, under every policy and statement sequence, the
source and the target of every emitted link are the id of a node present in
the same (nodes, links) pair. -/
theorem linksReferenceNodes (td : TypeDisplay) (triples : List Triple)
    (lk : GraphLink) (h : lk ∈ (triplesToGraph td triples).links) :
    (∃ n ∈ (triplesToGraph td triples).nodes, n.id = lk.source) ∧
    (∃ n ∈ (triplesToGraph td triples).nodes, n.id = lk.target) :=
  foldl_linksClosed td (buildNodeTypes triples) triples ([], [])
    (fun lk0 hlk0 => absurd hlk0 (List.not_mem_nil lk0)) lk h

/-- Witness for C10 at the concrete knows link of the example projection. -/
theorem linksReferenceNodesWitness :
    ((⟨"a", "b", "knows"⟩ : GraphLink) ∈
      (triplesToGraph TypeDisplay.off exStatements).links) ∧
    ((∃ n ∈ (triplesToGraph TypeDisplay.off exStatements).nodes,
        n.id = (⟨"a", "b", "knows"⟩ : GraphLink).source) ∧
      (∃ n ∈ (triplesToGraph TypeDisplay.off exStatements).nodes,
        n.id = (⟨"a", "b", "knows"⟩ : GraphLink).target)) :=
  ⟨by decide,
    linksReferenceNodes TypeDisplay.off exStatements ⟨"a", "b", "knows"⟩ (by decide)⟩

end RDFGraphViewer
